import Mathlib

/-!
Verification of the boolean-expression engine of `logicCircuitPlayground`
(`src/App.tsx`): token model, validator, shunting-yard converter (`toRPN`),
postfix evaluator (`evalRPN`), `safeEvaluate`, `usedVars` and `truthTable`.
The definitions below are a shallow embedding of the TypeScript source;
JavaScript records (`Record<string, boolean>`) are modelled as association
lists, thrown `Error` messages as `Except String` / `Option String` values
carrying the exact message strings of the source.
-/

/-- The operand names of the palette: `VARS = ["A","B","C","TRUE","FALSE"]`. -/
inductive VarName where
  | A
  | B
  | C
  | TRUE
  | FALSE
deriving DecidableEq, Repr

/-- The operator symbols of the palette: `OPS = ["&&","||","!"]`.
`NOT` is `"!"`, `AND` is `"&&"`, `OR` is `"||"`. -/
inductive OpName where
  | NOT
  | AND
  | OR
deriving DecidableEq, Repr

/-- `type Token = VarToken | OpToken | ParenToken` of the source. -/
inductive Token where
  | VAR (value : VarName)
  | OP (value : OpName)
  | LPAREN
  | RPAREN
deriving DecidableEq, Repr

/-- `Record<string, boolean>` environments, as an association list;
`Boolean(env[k])` of a missing key is `false`. -/
abbrev Env := List (VarName × Bool)

/-- `Boolean(env[v])`: value of key `v`, defaulting to `false` when absent. -/
def envGet : Env → VarName → Bool
  | [], _ => false
  | (k, b) :: rest, v => if k = v then b else envGet rest v

/-- Whether the record has key `v` at all. -/
def hasKey : Env → VarName → Bool
  | [], _ => false
  | (k, _) :: rest, v => k == v || hasKey rest v

/-- `env[v] = b`: JavaScript record update (overwrite, or append a new key). -/
def setKey : Env → VarName → Bool → Env
  | [], v, b => [(v, b)]
  | (k, x) :: rest, v, b => if k = v then (k, b) :: rest else (k, x) :: setKey rest v b

/-- `isOperator = (t?: Token) => t && t.type === "OP"` (on an optional token). -/
def isOperator : Option Token → Bool
  | some (Token.OP _) => true
  | _ => false

/-- `isPrefixUnary = (t?: Token) => t && t.type === "OP" && t.value === "!"`. -/
def isPrefixUnary : Option Token → Bool
  | some (Token.OP OpName.NOT) => true
  | _ => false

/-- `t.type === "VAR"`. -/
def isVarTok : Token → Bool
  | Token.VAR _ => true
  | _ => false

/-- `next?.type === "VAR" || next?.type === "LPAREN"`. -/
def isVarOrLParen : Option Token → Bool
  | some (Token.VAR _) => true
  | some Token.LPAREN => true
  | _ => false

/-- `t.type === "OP" && t.value !== "!"`: a binary operator token. -/
def isBinaryOpTok : Token → Bool
  | Token.OP OpName.AND => true
  | Token.OP OpName.OR => true
  | _ => false

/-- `next?.type === "OP" && next.value !== "!"`. -/
def isBinaryOpNext : Option Token → Bool
  | some (Token.OP OpName.AND) => true
  | some (Token.OP OpName.OR) => true
  | _ => false

/-- The body of the validation loop of `safeEvaluate`, for one position:
given `prev = tokens[i-1]`, `t = tokens[i]`, `next = tokens[i+1]`, the error
message thrown there (checks in source order), or `none`. -/
def checkTok (prev : Option Token) (t : Token) (next : Option Token) : Option String :=
  if isVarTok t && isVarOrLParen next then
    some "Missing operator between operands"
  else if (t == Token.RPAREN) && isVarOrLParen next then
    some "Missing operator between ) and next token"
  else if isBinaryOpTok t && (prev.isNone || next.isNone) then
    some "Binary operator needs operands on both sides"
  else if isBinaryOpTok t && (isOperator prev || prev == some Token.LPAREN) then
    some "Binary operator cannot follow an operator or ("
  else if isPrefixUnary (some t) && isBinaryOpNext next then
    some "! must be followed by an operand or ("
  else
    none

/-- The validation loop `for (let i = 0; i < tokens.length; i++) ...` of
`safeEvaluate`, carrying the previous token. -/
def scan : Option Token → List Token → Option String
  | _, [] => none
  | prev, t :: rest =>
    match checkTok prev t rest.head? with
    | some e => some e
    | none => scan (some t) rest

/-- The validity checks of `safeEvaluate` before conversion: the empty check
`if (!tokens.length) throw new Error("Empty expression")` followed by the
adjacency scan. Returns the thrown message, or `none` when the scan passes. -/
def validate (tokens : List Token) : Option String :=
  if tokens.isEmpty then some "Empty expression" else scan none tokens

/-- `precedence = { "!": 3, "&&": 2, "||": 1 }`. -/
def precedence : OpName → Nat
  | OpName.NOT => 3
  | OpName.AND => 2
  | OpName.OR => 1

/-- `rightAssociative = new Set(["!"])`. -/
def rightAssociative : OpName → Bool
  | OpName.NOT => true
  | _ => false

/-- The pop condition of the shunting-yard operator case:
`(rightAssociative.has(o1) && precedence[o1] < precedence[o2]) ||
 (!rightAssociative.has(o1) && precedence[o1] <= precedence[o2])`. -/
def shouldPop (o1 o2 : OpName) : Bool :=
  (rightAssociative o1 && decide (precedence o1 < precedence o2)) ||
  (!rightAssociative o1 && decide (precedence o1 ≤ precedence o2))

/-- The `while (stack.length)` loop of the operator case of `toRPN`: pop
operators satisfying `shouldPop` to the output; a `LPAREN` marker (whose
`.value` is `undefined` in the source) stops the loop.
Returns (stack, output) after the loop. -/
def popOps (o1 : OpName) : List Token → List Token → List Token × List Token
  | Token.OP o2 :: rest, output =>
    if shouldPop o1 o2 then popOps o1 rest (output ++ [Token.OP o2])
    else (Token.OP o2 :: rest, output)
  | stack, output => (stack, output)

/-- The `RPAREN` case of `toRPN`: pop to output until a `LPAREN` marker is
found and discarded; `none` when the stack empties without one
(`if (!foundLeft) throw new Error("Mismatched parentheses")`). -/
def popUntilLParen : List Token → List Token → Option (List Token × List Token)
  | [], _ => none
  | Token.LPAREN :: rest, output => some (rest, output)
  | t :: rest, output => popUntilLParen rest (output ++ [t])

/-- The final `while (stack.length)` drain of `toRPN`: pop everything to the
output, failing on a remaining `LPAREN` marker. -/
def drainStack : List Token → List Token → Except String (List Token)
  | [], output => Except.ok output
  | Token.LPAREN :: _, _ => Except.error "Mismatched parentheses"
  | t :: rest, output => drainStack rest (output ++ [t])

/-- The main scan of `toRPN` over the token sequence, carrying the output
sequence and the operator/marker stack (head = top of stack). -/
def toRPNAux : List Token → List Token → List Token → Except String (List Token)
  | [], output, stack => drainStack stack output
  | Token.VAR v :: rest, output, stack => toRPNAux rest (output ++ [Token.VAR v]) stack
  | Token.OP o1 :: rest, output, stack =>
    toRPNAux rest (popOps o1 stack output).2 (Token.OP o1 :: (popOps o1 stack output).1)
  | Token.LPAREN :: rest, output, stack => toRPNAux rest output (Token.LPAREN :: stack)
  | Token.RPAREN :: rest, output, stack =>
    match popUntilLParen stack output with
    | none => Except.error "Mismatched parentheses"
    | some (stack2, output2) => toRPNAux rest output2 stack2

/-- `function toRPN(tokens)`: shunting-yard conversion to postfix, or the
thrown `"Mismatched parentheses"` message. -/
def toRPN (tokens : List Token) : Except String (List Token) :=
  toRPNAux tokens [] []

/-- One step of the `for (const t of rpn)` loop of `evalRPN`, on the value
stack (head = top): operands are pushed (`TRUE`/`FALSE` as constants, other
names via the environment), operators pop their arguments. Tokens outside
the vocabulary (the parenthesis tokens, whose `.value` is `undefined`) hit
the defensive `"Unknown operator"` branch. -/
def evalStep (st : List Bool) (t : Token) (env : Env) : Except String (List Bool) :=
  match t with
  | Token.VAR VarName.TRUE => Except.ok (true :: st)
  | Token.VAR VarName.FALSE => Except.ok (false :: st)
  | Token.VAR v => Except.ok (envGet env v :: st)
  | Token.OP OpName.NOT =>
    match st with
    | v :: rest => Except.ok ((!v) :: rest)
    | [] => Except.error "Invalid unary operator placement"
  | Token.OP OpName.AND =>
    match st with
    | b :: a :: rest => Except.ok ((a && b) :: rest)
    | _ => Except.error "Invalid AND placement"
  | Token.OP OpName.OR =>
    match st with
    | b :: a :: rest => Except.ok ((a || b) :: rest)
    | _ => Except.error "Invalid OR placement"
  | _ => Except.error "Unknown operator"

/-- The whole `for (const t of rpn)` loop of `evalRPN`, threading the stack. -/
def evalList : List Token → List Bool → Env → Except String (List Bool)
  | [], st, _ => Except.ok st
  | t :: rest, st, env =>
    match evalStep st t env with
    | Except.ok st2 => evalList rest st2 env
    | Except.error e => Except.error e

/-- `function evalRPN(rpn, env)`: run the loop, then
`if (st.length !== 1) throw new Error("Incomplete expression"); return st[0]`. -/
def evalRPN (rpn : List Token) (env : Env) : Except String Bool :=
  match evalList rpn [] env with
  | Except.ok [v] => Except.ok v
  | Except.ok _ => Except.error "Incomplete expression"
  | Except.error e => Except.error e

/-- `function safeEvaluate(tokens, env)`: the validity checks, then
`toRPN`, then `evalRPN`; the first thrown message wins. -/
def safeEvaluate (tokens : List Token) (env : Env) : Except String Bool :=
  match validate tokens with
  | some e => Except.error e
  | none =>
    match toRPN tokens with
    | Except.error e => Except.error e
    | Except.ok rpn => evalRPN rpn env

/-- The list `["A","B","C"]` against which `usedVars` filters. -/
def varOrder : List VarName := [VarName.A, VarName.B, VarName.C]

/-- JavaScript string order of the operand names
(`"A" < "B" < "C" < "FALSE" < "TRUE"`), for the `.sort()` call. -/
def rank : VarName → Nat
  | VarName.A => 0
  | VarName.B => 1
  | VarName.C => 2
  | VarName.FALSE => 3
  | VarName.TRUE => 4

/-- The comparison used by `Array.from(s).sort()` on the used names. -/
def varLe (a b : VarName) : Prop := rank a ≤ rank b

instance : DecidableRel varLe := fun a b => Nat.decLe (rank a) (rank b)

instance : IsTotal VarName varLe := ⟨fun a b => Nat.le_total (rank a) (rank b)⟩

instance : IsTrans VarName varLe := ⟨fun _ _ _ h1 h2 => Nat.le_trans h1 h2⟩

instance : IsAntisymm VarName varLe :=
  ⟨by
    intro a b h1 h2
    cases a <;> cases b <;>
      first
        | rfl
        | exact absurd h1 (by decide)
        | exact absurd h2 (by decide)⟩

/-- `Set.add`: JavaScript `Set` insertion keeps first-insertion order and
ignores duplicates. -/
def insertUnique (s : List VarName) (v : VarName) : List VarName :=
  if v ∈ s then s else s ++ [v]

/-- The `forEach` callback building the `Set` in `usedVars`:
`if (t.type === "VAR" && ["A","B","C"].includes(t.value)) s.add(t.value)`. -/
def collectStep (s : List VarName) (t : Token) : List VarName :=
  match t with
  | Token.VAR v => if v ∈ varOrder then insertUnique s v else s
  | _ => s

/-- The `tokens.forEach` building the `Set` in `usedVars`: collect the
values of `VAR` tokens whose name is in `["A","B","C"]`, without duplicates,
in first-occurrence order. -/
def collectVars (tokens : List Token) : List VarName :=
  tokens.foldl collectStep []

/-- `usedVars`: `Array.from(s).sort()` — the used names among `A`,`B`,`C`,
sorted in string order. -/
def usedVars (tokens : List Token) : List VarName :=
  List.insertionSort varLe (collectVars tokens)

/-- A truth-table cell: a boolean on success, the `"—"` sentinel pushed by
the `catch` branch on failure. -/
inductive CellResult where
  | val (b : Bool)
  | sentinel
deriving DecidableEq, Repr

/-- One row `{ ...assignment, RESULT }` of the truth table: the assignment
record always has exactly the keys `A`, `B`, `C`. -/
structure Row where
  A : Bool
  B : Bool
  C : Bool
  RESULT : CellResult
deriving DecidableEq, Repr

/-- The `try { ... } catch { ... }` around `safeEvaluate` in the table loop. -/
def cellOf : Except String Bool → CellResult
  | Except.ok b => CellResult.val b
  | Except.error _ => CellResult.sentinel

/-- `{ ...assignment, RESULT: r }`. -/
def mkRow (assignment : Env) (r : CellResult) : Row :=
  { A := envGet assignment VarName.A
    B := envGet assignment VarName.B
    C := envGet assignment VarName.C
    RESULT := r }

/-- `const assignment = { A: false, B: false, C: false }`. -/
def baseAssignment : Env := [(VarName.A, false), (VarName.B, false), (VarName.C, false)]

/-- `usedVars.forEach((v, i) => { assignment[v] = Boolean((mask >> (n - 1 - i)) & 1); })`. -/
def buildAssignment (vars : List VarName) (mask : Nat) (n : Nat) : Env :=
  (vars.enum).foldl
    (fun env iv => setKey env iv.2 (Nat.testBit mask (n - 1 - iv.1)))
    baseAssignment

/-- The truth-table loop `for (let mask = 0; mask < total; mask++)` with
`total = 1 << n`, `n = usedVars.length`, returning `[]` when
`usedVars.length === 0`. -/
def truthTable (tokens : List Token) : List Row :=
  if (usedVars tokens).length = 0 then []
  else
    (List.range (2 ^ (usedVars tokens).length)).map
      (fun mask =>
        mkRow (buildAssignment (usedVars tokens) mask (usedVars tokens).length)
          (cellOf (safeEvaluate tokens
            (buildAssignment (usedVars tokens) mask (usedVars tokens).length))))

/-- C3: `A || B && C` and `A || (B && C)` agree under every assignment. -/
theorem spec_C3_and_binds_tighter_than_or : ∀ a b c : Bool,
    safeEvaluate
        [Token.VAR VarName.A, Token.OP OpName.OR, Token.VAR VarName.B,
          Token.OP OpName.AND, Token.VAR VarName.C]
        [(VarName.A, a), (VarName.B, b), (VarName.C, c)] =
      safeEvaluate
        [Token.VAR VarName.A, Token.OP OpName.OR, Token.LPAREN, Token.VAR VarName.B,
          Token.OP OpName.AND, Token.VAR VarName.C, Token.RPAREN]
        [(VarName.A, a), (VarName.B, b), (VarName.C, c)] := by
  intro a b c
  cases a <;> cases b <;> cases c <;> rfl

/-- C8: `!!A` converts to the postfix `A ! !` (the right-associativity
branch keeps the outer `!` on the stack) and evaluates to `A`'s value under
`{A: x}`, for both values of `x`. -/
theorem spec_C8_double_negation : ∀ x : Bool,
    toRPN [Token.OP OpName.NOT, Token.OP OpName.NOT, Token.VAR VarName.A] =
        Except.ok [Token.VAR VarName.A, Token.OP OpName.NOT, Token.OP OpName.NOT] ∧
      safeEvaluate [Token.OP OpName.NOT, Token.OP OpName.NOT, Token.VAR VarName.A]
          [(VarName.A, x)] =
        Except.ok x := by
  intro x
  cases x <;> exact ⟨rfl, rfl⟩

/-- C10: the empty group `( )` passes the validator, converts to the empty
postfix sequence, and fails only in the evaluator with the
`"Incomplete expression"` error, under every environment. -/
theorem spec_C10_empty_group :
    validate [Token.LPAREN, Token.RPAREN] = none ∧
      toRPN [Token.LPAREN, Token.RPAREN] = Except.ok [] ∧
      ∀ env : Env, safeEvaluate [Token.LPAREN, Token.RPAREN] env =
        Except.error "Incomplete expression" :=
  ⟨rfl, rfl, fun _ => rfl⟩

/-- C2 counterexample: for the expression `A`, the truth table's rows are
`A=false` first and `A=true` second, so the claimed order
(`A=true` first, then `A=false`) is false on the code. -/
theorem spec_C2_counterexample :
    (truthTable [Token.VAR VarName.A]).map (fun r => r.A) = [false, true] ∧
      ¬(truthTable [Token.VAR VarName.A]).map (fun r => r.A) = [true, false] := by
  exact ⟨rfl, by decide⟩

/-- C2 (amended): for every expression whose only used variable is `A`, the
truth table has exactly the two rows `A=false` (mask `0`) then `A=true`
(mask `1`), in that order, each carrying the result of `safeEvaluate` under
that assignment. -/
theorem spec_C2_amended_single_var_table (ts : List Token)
    (h : usedVars ts = [VarName.A]) :
    truthTable ts =
      [ mkRow [(VarName.A, false), (VarName.B, false), (VarName.C, false)]
          (cellOf (safeEvaluate ts
            [(VarName.A, false), (VarName.B, false), (VarName.C, false)])),
        mkRow [(VarName.A, true), (VarName.B, false), (VarName.C, false)]
          (cellOf (safeEvaluate ts
            [(VarName.A, true), (VarName.B, false), (VarName.C, false)])) ] := by
  unfold truthTable
  rw [h]
  rfl

/-- Witness for the amended C2, at the expression `A` itself. -/
theorem spec_C2_amended_witness :
    usedVars [Token.VAR VarName.A] = [VarName.A] ∧
      truthTable [Token.VAR VarName.A] =
        [ mkRow [(VarName.A, false), (VarName.B, false), (VarName.C, false)]
            (cellOf (safeEvaluate [Token.VAR VarName.A]
              [(VarName.A, false), (VarName.B, false), (VarName.C, false)])),
          mkRow [(VarName.A, true), (VarName.B, false), (VarName.C, false)]
            (cellOf (safeEvaluate [Token.VAR VarName.A]
              [(VarName.A, true), (VarName.B, false), (VarName.C, false)])) ] :=
  ⟨rfl, spec_C2_amended_single_var_table [Token.VAR VarName.A] rfl⟩

/-- C4 counterexample: evaluating the postfix sequence `[!]` underflows the
stack and fails with `"Invalid unary operator placement"`, which is not the
`"Incomplete expression"` error the claim names for that case. -/
theorem spec_C4_counterexample :
    evalRPN [Token.OP OpName.NOT] [] = Except.error "Invalid unary operator placement" ∧
      "Invalid unary operator placement" ≠ "Incomplete expression" :=
  ⟨rfl, by decide⟩

/-- C4 (amended): `NOT` needs at least one stack value and `AND`/`OR` need
at least two, but an underflow fails with the operator-specific placement
error (`"Invalid unary operator placement"`, `"Invalid AND placement"`,
`"Invalid OR placement"`), not with the incomplete-expression error; after
the whole sequence is consumed, a result is returned exactly when one value
remains, and `"Incomplete expression"` is reported exactly when zero or
more than one remain. -/
theorem spec_C4_amended_stack_discipline (env : Env) (st : List Bool)
    (rpn : List Token) (stf : List Bool)
    (hrun : evalList rpn [] env = Except.ok stf) :
    (evalStep st (Token.OP OpName.NOT) env =
        Except.error "Invalid unary operator placement" ↔ st.length < 1) ∧
      (evalStep st (Token.OP OpName.AND) env =
        Except.error "Invalid AND placement" ↔ st.length < 2) ∧
      (evalStep st (Token.OP OpName.OR) env =
        Except.error "Invalid OR placement" ↔ st.length < 2) ∧
      ((∃ st2, evalStep st (Token.OP OpName.NOT) env = Except.ok st2) ↔ 1 ≤ st.length) ∧
      ((∃ st2, evalStep st (Token.OP OpName.AND) env = Except.ok st2) ↔ 2 ≤ st.length) ∧
      ((∃ st2, evalStep st (Token.OP OpName.OR) env = Except.ok st2) ↔ 2 ≤ st.length) ∧
      ((∃ v, evalRPN rpn env = Except.ok v) ↔ stf.length = 1) ∧
      (evalRPN rpn env = Except.error "Incomplete expression" ↔ stf.length ≠ 1) := by
  refine ⟨?_, ?_, ?_, ?_, ?_, ?_, ?_, ?_⟩
  · cases st <;> simp [evalStep]
  · match st with
    | [] => simp [evalStep]
    | [v] => simp [evalStep]
    | a :: b :: rest => simp [evalStep]
  · match st with
    | [] => simp [evalStep]
    | [v] => simp [evalStep]
    | a :: b :: rest => simp [evalStep]
  · cases st <;> simp [evalStep]
  · match st with
    | [] => simp [evalStep]
    | [v] => simp [evalStep]
    | a :: b :: rest => simp [evalStep]
  · match st with
    | [] => simp [evalStep]
    | [v] => simp [evalStep]
    | a :: b :: rest => simp [evalStep]
  · unfold evalRPN
    rw [hrun]
    match stf with
    | [] => simp
    | [v] => simp
    | a :: b :: rest => simp
  · unfold evalRPN
    rw [hrun]
    match stf with
    | [] => simp
    | [v] => simp
    | a :: b :: rest => simp

/-- Witness for the amended C4: the postfix sequence `[A, A]` leaves two
values on the stack and is reported as `"Incomplete expression"`. -/
theorem spec_C4_amended_witness :
    evalList [Token.VAR VarName.A, Token.VAR VarName.A] [] [] = Except.ok [false, false] ∧
      evalRPN [Token.VAR VarName.A, Token.VAR VarName.A] [] =
        Except.error "Incomplete expression" := by
  refine ⟨rfl, ?_⟩
  exact (spec_C4_amended_stack_discipline [] [] [Token.VAR VarName.A, Token.VAR VarName.A]
    [false, false] rfl).2.2.2.2.2.2.2.mpr (by decide)

/-- A key the record does not have reads as `false`. -/
theorem envGet_of_hasKey_false : ∀ (env : Env) (v : VarName),
    hasKey env v = false → envGet env v = false := by
  intro env v
  induction env with
  | nil => intro _; rfl
  | cons p rest ih =>
    intro h
    obtain ⟨k, b⟩ := p
    simp only [hasKey, Bool.or_eq_false_iff, beq_eq_false_iff_ne] at h
    simp only [envGet, if_neg h.1]
    exact ih h.2

/-- Updating one key leaves the values of all other keys unchanged. -/
theorem envGet_setKey_ne : ∀ (env : Env) (k v : VarName) (b : Bool),
    k ≠ v → envGet (setKey env k b) v = envGet env v := by
  intro env k v b hk
  induction env with
  | nil => simp [setKey, envGet, if_neg hk]
  | cons p rest ih =>
    obtain ⟨k2, x⟩ := p
    by_cases h2 : k2 = k
    · subst h2
      simp [setKey, envGet, if_neg hk]
    · simp only [setKey, if_neg h2, envGet]
      by_cases h3 : k2 = v
      · simp [if_pos h3]
      · simp [if_neg h3, ih]

/-- One evaluator step only reads the environment at keys other than
`TRUE` and `FALSE`. -/
theorem evalStep_congr (st : List Bool) (t : Token) (env1 env2 : Env)
    (h : ∀ v : VarName, v ≠ VarName.TRUE → v ≠ VarName.FALSE →
      envGet env1 v = envGet env2 v) :
    evalStep st t env1 = evalStep st t env2 := by
  cases t with
  | VAR v =>
    cases v with
    | A => simp [evalStep, h VarName.A (by decide) (by decide)]
    | B => simp [evalStep, h VarName.B (by decide) (by decide)]
    | C => simp [evalStep, h VarName.C (by decide) (by decide)]
    | TRUE => rfl
    | FALSE => rfl
  | OP o => cases o <;> rfl
  | LPAREN => rfl
  | RPAREN => rfl

/-- The evaluator loop only reads the environment at keys other than
`TRUE` and `FALSE`. -/
theorem evalList_congr : ∀ (rpn : List Token) (st : List Bool) (env1 env2 : Env),
    (∀ v : VarName, v ≠ VarName.TRUE → v ≠ VarName.FALSE →
      envGet env1 v = envGet env2 v) →
    evalList rpn st env1 = evalList rpn st env2 := by
  intro rpn
  induction rpn with
  | nil => intro st env1 env2 _; rfl
  | cons t rest ih =>
    intro st env1 env2 h
    simp only [evalList, evalStep_congr st t env1 env2 h]
    cases evalStep st t env2 with
    | ok st2 => exact ih st2 env1 env2 h
    | error e => rfl

/-- C6: under every environment, a variable among `A`,`B`,`C` whose key is
absent evaluates to `false`; `Variable(TRUE)`/`Variable(FALSE)` push the
constants `true`/`false` whatever the environment holds; and rebinding the
key `TRUE` or `FALSE` in the environment changes no evaluation result. -/
theorem spec_C6_env_defaults_and_constants (env : Env) :
    (∀ (st : List Bool) (v : VarName), v ≠ VarName.TRUE → v ≠ VarName.FALSE →
        hasKey env v = false →
        evalStep st (Token.VAR v) env = Except.ok (false :: st)) ∧
      (∀ st : List Bool,
        evalStep st (Token.VAR VarName.TRUE) env = Except.ok (true :: st)) ∧
      (∀ st : List Bool,
        evalStep st (Token.VAR VarName.FALSE) env = Except.ok (false :: st)) ∧
      (∀ (rpn : List Token) (b : Bool),
        evalRPN rpn (setKey env VarName.TRUE b) = evalRPN rpn env) ∧
      (∀ (rpn : List Token) (b : Bool),
        evalRPN rpn (setKey env VarName.FALSE b) = evalRPN rpn env) := by
  refine ⟨?_, fun _ => rfl, fun _ => rfl, ?_, ?_⟩
  · intro st v hT hF habs
    have hget := envGet_of_hasKey_false env v habs
    cases v with
    | A => simp [evalStep, hget]
    | B => simp [evalStep, hget]
    | C => simp [evalStep, hget]
    | TRUE => exact absurd rfl hT
    | FALSE => exact absurd rfl hF
  · intro rpn b
    unfold evalRPN
    rw [evalList_congr rpn [] (setKey env VarName.TRUE b) env
      (fun v hT2 _ => envGet_setKey_ne env VarName.TRUE v b (fun hh => hT2 hh.symm))]
  · intro rpn b
    unfold evalRPN
    rw [evalList_congr rpn [] (setKey env VarName.FALSE b) env
      (fun v _ hF2 => envGet_setKey_ne env VarName.FALSE v b (fun hh => hF2 hh.symm))]

/-- Witness for C6 at a concrete environment: `B` is absent from
`{A: true}` and reads as `false`; rebinding `TRUE` to `false` does not
change the evaluation of `[TRUE]`. -/
theorem spec_C6_witness :
    evalStep [] (Token.VAR VarName.B) [(VarName.A, true)] = Except.ok [false] ∧
      evalRPN [Token.VAR VarName.TRUE] (setKey [(VarName.A, true)] VarName.TRUE false) =
        evalRPN [Token.VAR VarName.TRUE] [(VarName.A, true)] :=
  ⟨(spec_C6_env_defaults_and_constants [(VarName.A, true)]).1 [] VarName.B
      (by decide) (by decide) (by decide),
    (spec_C6_env_defaults_and_constants [(VarName.A, true)]).2.2.2.1
      [Token.VAR VarName.TRUE] false⟩

/-- Walking the token sequence with a parenthesis-nesting depth that starts
at `d`: `true` when some `RPAREN` is reached at depth `0` — exactly the
situations in which the `RPAREN` case of `toRPN` empties the stack without
finding a `LPAREN` marker. -/
def hasExcessClose : List Token → Nat → Bool
  | [], _ => false
  | Token.LPAREN :: rest, d => hasExcessClose rest (d + 1)
  | Token.RPAREN :: rest, d => d == 0 || hasExcessClose rest (d - 1)
  | _ :: rest, d => hasExcessClose rest d

/-- The final drain fails exactly when a `LPAREN` marker remains on the
stack. -/
theorem drainStack_error_iff : ∀ (stack output : List Token),
    (∃ e, drainStack stack output = Except.error e) ↔
      stack.count Token.LPAREN ≠ 0 := by
  intro stack
  induction stack with
  | nil => intro output; simp [drainStack]
  | cons t rest ih =>
    intro output
    cases t with
    | VAR v => simpa [drainStack, List.count_cons] using ih (output ++ [Token.VAR v])
    | OP o => simpa [drainStack, List.count_cons] using ih (output ++ [Token.OP o])
    | LPAREN => simp [drainStack, List.count_cons]
    | RPAREN => simpa [drainStack, List.count_cons] using ih (output ++ [Token.RPAREN])

/-- The only error the final drain can produce. -/
theorem drainStack_error_val : ∀ (stack output : List Token) (e : String),
    drainStack stack output = Except.error e → e = "Mismatched parentheses" := by
  intro stack
  induction stack with
  | nil => intro output e h; exact absurd h (by simp [drainStack])
  | cons t rest ih =>
    intro output e h
    cases t with
    | VAR v => exact ih (output ++ [Token.VAR v]) e h
    | OP o => exact ih (output ++ [Token.OP o]) e h
    | LPAREN => cases h; rfl
    | RPAREN => exact ih (output ++ [Token.RPAREN]) e h

/-- The operator-popping loop never pops a `LPAREN` marker. -/
theorem popOps_count (o1 : OpName) : ∀ (stack output : List Token),
    (popOps o1 stack output).1.count Token.LPAREN = stack.count Token.LPAREN := by
  intro stack
  induction stack with
  | nil => intro output; rfl
  | cons t rest ih =>
    intro output
    cases t with
    | VAR v => rfl
    | OP o2 =>
      by_cases hpop : shouldPop o1 o2 = true
      · simpa [popOps, hpop, List.count_cons] using ih (output ++ [Token.OP o2])
      · simp [popOps, hpop]
    | LPAREN => rfl
    | RPAREN => rfl

/-- When the stack holds no `LPAREN` marker, the `RPAREN` case empties it
and fails. -/
theorem popUntilLParen_none : ∀ (stack output : List Token),
    stack.count Token.LPAREN = 0 → popUntilLParen stack output = none := by
  intro stack
  induction stack with
  | nil => intro output _; rfl
  | cons t rest ih =>
    intro output h
    cases t with
    | VAR v => exact ih (output ++ [Token.VAR v]) (by simpa [List.count_cons] using h)
    | OP o => exact ih (output ++ [Token.OP o]) (by simpa [List.count_cons] using h)
    | LPAREN => simp [List.count_cons] at h
    | RPAREN => exact ih (output ++ [Token.RPAREN]) (by simpa [List.count_cons] using h)

/-- When the stack holds a `LPAREN` marker, the `RPAREN` case succeeds and
consumes exactly the topmost one. -/
theorem popUntilLParen_some : ∀ (stack output : List Token),
    stack.count Token.LPAREN ≠ 0 →
    ∃ stack2 output2, popUntilLParen stack output = some (stack2, output2) ∧
      stack2.count Token.LPAREN + 1 = stack.count Token.LPAREN := by
  intro stack
  induction stack with
  | nil => intro output h; exact absurd rfl h
  | cons t rest ih =>
    intro output h
    cases t with
    | VAR v =>
      obtain ⟨s2, o2, heq, hc⟩ := ih (output ++ [Token.VAR v])
        (by simpa [List.count_cons] using h)
      exact ⟨s2, o2, heq, by simpa [List.count_cons] using hc⟩
    | OP o =>
      obtain ⟨s2, o2, heq, hc⟩ := ih (output ++ [Token.OP o])
        (by simpa [List.count_cons] using h)
      exact ⟨s2, o2, heq, by simpa [List.count_cons] using hc⟩
    | LPAREN => exact ⟨rest, output, rfl, by simp [List.count_cons]⟩
    | RPAREN =>
      obtain ⟨s2, o2, heq, hc⟩ := ih (output ++ [Token.RPAREN])
        (by simpa [List.count_cons] using h)
      exact ⟨s2, o2, heq, by simpa [List.count_cons] using hc⟩

/-- The conversion scan fails exactly when, starting from the current
stack's nesting depth, some `RPAREN` is reached at depth `0`, or the final
depth is nonzero (a `LPAREN` marker survives to the drain). -/
theorem toRPNAux_error_iff : ∀ (ts output stack : List Token),
    (∃ e, toRPNAux ts output stack = Except.error e) ↔
      (hasExcessClose ts (stack.count Token.LPAREN) = true ∨
        stack.count Token.LPAREN + ts.count Token.LPAREN ≠ ts.count Token.RPAREN) := by
  intro ts
  induction ts with
  | nil =>
    intro output stack
    rw [show toRPNAux [] output stack = drainStack stack output from rfl,
      drainStack_error_iff]
    simp [hasExcessClose]
  | cons t rest ih =>
    intro output stack
    cases t with
    | VAR v =>
      rw [show toRPNAux (Token.VAR v :: rest) output stack =
          toRPNAux rest (output ++ [Token.VAR v]) stack from rfl, ih]
      simp [hasExcessClose, List.count_cons]
    | OP o =>
      rw [show toRPNAux (Token.OP o :: rest) output stack =
          toRPNAux rest (popOps o stack output).2
            (Token.OP o :: (popOps o stack output).1) from rfl, ih]
      simp [hasExcessClose, List.count_cons, popOps_count]
    | LPAREN =>
      rw [show toRPNAux (Token.LPAREN :: rest) output stack =
          toRPNAux rest output (Token.LPAREN :: stack) from rfl, ih]
      simp only [hasExcessClose, List.count_cons_self,
        List.count_cons_of_ne (by decide : Token.RPAREN ≠ Token.LPAREN)]
      exact or_congr Iff.rfl (by omega)
    | RPAREN =>
      by_cases hd : stack.count Token.LPAREN = 0
      · rw [show toRPNAux (Token.RPAREN :: rest) output stack =
            (match popUntilLParen stack output with
              | none => Except.error "Mismatched parentheses"
              | some (stack2, output2) => toRPNAux rest output2 stack2) from rfl,
          popUntilLParen_none stack output hd]
        simp [hasExcessClose, hd]
      · obtain ⟨s2, o2, heq, hc⟩ := popUntilLParen_some stack output hd
        rw [show toRPNAux (Token.RPAREN :: rest) output stack =
            (match popUntilLParen stack output with
              | none => Except.error "Mismatched parentheses"
              | some (stack2, output2) => toRPNAux rest output2 stack2) from rfl,
          heq, ih o2 s2]
        simp only [hasExcessClose, List.count_cons_self,
          List.count_cons_of_ne (by decide : Token.LPAREN ≠ Token.RPAREN), ← hc,
          Nat.add_sub_cancel, Bool.or_eq_true]
        constructor
        · rintro (h | h)
          · exact Or.inl (Or.inr h)
          · exact Or.inr (by omega)
        · rintro (h | h)
          · rcases h with h | h
            · exact absurd (beq_iff_eq.mp h) (by omega)
            · exact Or.inl h
          · exact Or.inr (by omega)

/-- The conversion scan only ever fails with `"Mismatched parentheses"`. -/
theorem toRPNAux_error_val : ∀ (ts output stack : List Token) (e : String),
    toRPNAux ts output stack = Except.error e → e = "Mismatched parentheses" := by
  intro ts
  induction ts with
  | nil => intro output stack e h; exact drainStack_error_val stack output e h
  | cons t rest ih =>
    intro output stack e h
    cases t with
    | VAR v => exact ih (output ++ [Token.VAR v]) stack e h
    | OP o => exact ih (popOps o stack output).2 (Token.OP o :: (popOps o stack output).1) e h
    | LPAREN => exact ih output (Token.LPAREN :: stack) e h
    | RPAREN =>
      rcases hpop : popUntilLParen stack output with _ | ⟨s2, o2⟩
      · rw [show toRPNAux (Token.RPAREN :: rest) output stack =
            (match popUntilLParen stack output with
              | none => Except.error "Mismatched parentheses"
              | some (stack2, output2) => toRPNAux rest output2 stack2) from rfl,
          hpop] at h
        cases h; rfl
      · rw [show toRPNAux (Token.RPAREN :: rest) output stack =
            (match popUntilLParen stack output with
              | none => Except.error "Mismatched parentheses"
              | some (stack2, output2) => toRPNAux rest output2 stack2) from rfl,
          hpop] at h
        exact ih o2 s2 e h

/-- C5: the Converter fails exactly when some `RightParen` is reached with
no open group (the stack empties without a `LeftParen` marker) or the
parenthesis counts do not balance (a `LeftParen` marker survives to the
end-of-scan drain); every failure carries `"Mismatched parentheses"`; and
in particular `[LeftParen, Variable(A)]` fails with it. -/
theorem spec_C5_mismatched_parentheses (ts : List Token) :
    ((∃ e, toRPN ts = Except.error e) ↔
        (hasExcessClose ts 0 = true ∨
          ts.count Token.LPAREN ≠ ts.count Token.RPAREN)) ∧
      (∀ e, toRPN ts = Except.error e → e = "Mismatched parentheses") ∧
      toRPN [Token.LPAREN, Token.VAR VarName.A] =
        Except.error "Mismatched parentheses" := by
  refine ⟨?_, fun e h => toRPNAux_error_val ts [] [] e h, rfl⟩
  simpa using toRPNAux_error_iff ts [] []

/-- Witness for C5 at `[LeftParen, Variable(A)]`: the input is unbalanced
and the reported error is `"Mismatched parentheses"`. -/
theorem spec_C5_witness :
    (hasExcessClose [Token.LPAREN, Token.VAR VarName.A] 0 = true ∨
        [Token.LPAREN, Token.VAR VarName.A].count Token.LPAREN ≠
          [Token.LPAREN, Token.VAR VarName.A].count Token.RPAREN) ∧
      "Mismatched parentheses" = "Mismatched parentheses" :=
  ⟨(spec_C5_mismatched_parentheses [Token.LPAREN, Token.VAR VarName.A]).1.mp
      ⟨_, (spec_C5_mismatched_parentheses [Token.LPAREN, Token.VAR VarName.A]).2.2⟩,
    (spec_C5_mismatched_parentheses [Token.LPAREN, Token.VAR VarName.A]).2.1 _
      (spec_C5_mismatched_parentheses [Token.LPAREN, Token.VAR VarName.A]).2.2⟩

/-- Membership after a `Set` insertion. -/
theorem mem_insertUnique (s : List VarName) (w v : VarName) :
    v ∈ insertUnique s w ↔ v ∈ s ∨ v = w := by
  unfold insertUnique
  by_cases h : w ∈ s
  · simp only [if_pos h]
    exact ⟨Or.inl, fun hh => hh.elim id (fun he => he ▸ h)⟩
  · simp [if_neg h]

/-- A `Set` insertion keeps the collected list duplicate-free. -/
theorem insertUnique_nodup (s : List VarName) (v : VarName) (hs : s.Nodup) :
    (insertUnique s v).Nodup := by
  unfold insertUnique
  by_cases h : v ∈ s
  · simpa [if_pos h] using hs
  · rw [if_neg h]
    exact List.Nodup.append hs (List.nodup_singleton v)
      (fun a ha hav => h ((List.mem_singleton.mp hav) ▸ ha))

/-- Membership after one `forEach` step. -/
theorem mem_collectStep (s : List VarName) (t : Token) (v : VarName) :
    v ∈ collectStep s t ↔ v ∈ s ∨ (t = Token.VAR v ∧ v ∈ varOrder) := by
  cases t with
  | VAR w =>
    rw [show collectStep s (Token.VAR w) =
        if w ∈ varOrder then insertUnique s w else s from rfl]
    by_cases h : w ∈ varOrder
    · rw [if_pos h, mem_insertUnique]
      simp only [Token.VAR.injEq]
      constructor
      · rintro (hh | hh)
        · exact Or.inl hh
        · exact Or.inr ⟨hh.symm, by rwa [hh]⟩
      · rintro (hh | ⟨hh, hm⟩)
        · exact Or.inl hh
        · exact Or.inr hh.symm
    · rw [if_neg h]
      simp only [Token.VAR.injEq]
      constructor
      · exact Or.inl
      · rintro (hh | ⟨hh, hm⟩)
        · exact hh
        · exact absurd (by rw [hh]; exact hm) h
  | OP o => simp [collectStep]
  | LPAREN => simp [collectStep]
  | RPAREN => simp [collectStep]

/-- One `forEach` step keeps the collected list duplicate-free. -/
theorem collectStep_nodup (s : List VarName) (t : Token) (hs : s.Nodup) :
    (collectStep s t).Nodup := by
  cases t with
  | VAR w =>
    by_cases h : w ∈ varOrder
    · simpa [collectStep, h] using insertUnique_nodup s w hs
    · simpa [collectStep, h] using hs
  | OP o => exact hs
  | LPAREN => exact hs
  | RPAREN => exact hs

/-- Membership in the collected set: exactly the names among `A`,`B`,`C`
that occur as `VAR` tokens. -/
theorem mem_foldl_collect : ∀ (ts : List Token) (acc : List VarName) (v : VarName),
    v ∈ ts.foldl collectStep acc ↔
      v ∈ acc ∨ (Token.VAR v ∈ ts ∧ v ∈ varOrder) := by
  intro ts
  induction ts with
  | nil => intro acc v; simp
  | cons t rest ih =>
    intro acc v
    rw [show (t :: rest).foldl collectStep acc = rest.foldl collectStep (collectStep acc t)
      from rfl, ih, mem_collectStep]
    simp only [List.mem_cons]
    constructor
    · rintro ((hh | ⟨hh, hm⟩) | ⟨hh, hm⟩)
      · exact Or.inl hh
      · exact Or.inr ⟨Or.inl hh.symm, hm⟩
      · exact Or.inr ⟨Or.inr hh, hm⟩
    · rintro (hh | ⟨hh | hh, hm⟩)
      · exact Or.inl (Or.inl hh)
      · exact Or.inl (Or.inr ⟨hh.symm, hm⟩)
      · exact Or.inr ⟨hh, hm⟩

/-- The collected set is duplicate-free. -/
theorem foldl_collect_nodup : ∀ (ts : List Token) (acc : List VarName),
    acc.Nodup → (ts.foldl collectStep acc).Nodup := by
  intro ts
  induction ts with
  | nil => intro acc h; exact h
  | cons t rest ih => intro acc h; exact ih (collectStep acc t) (collectStep_nodup acc t h)

/-- `usedVars` is exactly `["A","B","C"]` filtered by occurrence in the
token sequence (sorted, duplicate-free). -/
theorem usedVars_eq_filter (ts : List Token) :
    usedVars ts = varOrder.filter (fun v => decide (Token.VAR v ∈ ts)) := by
  have hperm0 : List.Perm (usedVars ts) (collectVars ts) :=
    List.perm_insertionSort varLe _
  have hnody : (usedVars ts).Nodup :=
    hperm0.nodup_iff.mpr (foldl_collect_nodup ts [] List.nodup_nil)
  have hnodf : (varOrder.filter (fun v => decide (Token.VAR v ∈ ts))).Nodup :=
    List.Nodup.filter _ (by decide)
  have hmem : ∀ v, v ∈ usedVars ts ↔
      v ∈ varOrder.filter (fun v => decide (Token.VAR v ∈ ts)) := by
    intro v
    rw [hperm0.mem_iff, show collectVars ts = List.foldl collectStep [] ts from rfl,
      mem_foldl_collect, List.mem_filter]
    simp [and_comm]
  exact List.eq_of_perm_of_sorted
    ((List.perm_ext_iff_of_nodup hnody hnodf).mpr hmem)
    (List.sorted_insertionSort varLe _)
    (List.Pairwise.filter _ (by decide : List.Pairwise varLe varOrder))

/-- The `(A, B, C)` values of the assignment built for a given mask. -/
def assignTriple (vars : List VarName) (mask n : Nat) : Bool × Bool × Bool :=
  (envGet (buildAssignment vars mask n) VarName.A,
    envGet (buildAssignment vars mask n) VarName.B,
    envGet (buildAssignment vars mask n) VarName.C)

/-- When distinct masks build distinct assignments, the enumerated rows have
pairwise distinct assignment triples. -/
theorem pairwise_rows_of_key (ts : List Token) (vars : List VarName) (n : Nat)
    (key : ∀ i, i < 2 ^ n → ∀ j, j < 2 ^ n → i ≠ j →
      assignTriple vars i n ≠ assignTriple vars j n) :
    List.Pairwise (fun r1 r2 : Row => (r1.A, r1.B, r1.C) ≠ (r2.A, r2.B, r2.C))
      ((List.range (2 ^ n)).map
        (fun mask => mkRow (buildAssignment vars mask n)
          (cellOf (safeEvaluate ts (buildAssignment vars mask n))))) := by
  rw [List.pairwise_map]
  refine List.Pairwise.imp_of_mem ?_ (List.pairwise_lt_range (2 ^ n))
  intro i j hi hj hlt
  exact key i (List.mem_range.mp hi) j (List.mem_range.mp hj) (Nat.ne_of_lt hlt)

/-- The nonempty-variable-list case of the truth table: row count and
pairwise-distinct assignments. -/
theorem truthTable_len_pairwise (ts : List Token) (vars : List VarName)
    (hv : usedVars ts = vars) (hne : vars ≠ [])
    (key : ∀ i, i < 2 ^ vars.length → ∀ j, j < 2 ^ vars.length → i ≠ j →
      assignTriple vars i vars.length ≠ assignTriple vars j vars.length) :
    (truthTable ts).length = 2 ^ vars.length ∧
      List.Pairwise (fun r1 r2 : Row => (r1.A, r1.B, r1.C) ≠ (r2.A, r2.B, r2.C))
        (truthTable ts) := by
  have ht : truthTable ts =
      (List.range (2 ^ vars.length)).map
        (fun mask => mkRow (buildAssignment vars mask vars.length)
          (cellOf (safeEvaluate ts (buildAssignment vars mask vars.length)))) := by
    unfold truthTable
    rw [hv, if_neg (fun hz => hne (List.length_eq_zero.mp hz))]
  exact ⟨by rw [ht]; simp, ht ▸ pairwise_rows_of_key ts vars vars.length key⟩

/-- C7: for every token sequence the truth table has `2^k` rows, `k` the
number of distinct used variables among `A`,`B`,`C`, except that `k = 0`
yields the empty table; and the rows' assignment triples are pairwise
distinct. -/
theorem spec_C7_row_count_and_distinct_assignments (ts : List Token) :
    ((truthTable ts).length =
        if usedVars ts = [] then 0 else 2 ^ (usedVars ts).length) ∧
      List.Pairwise (fun r1 r2 : Row => (r1.A, r1.B, r1.C) ≠ (r2.A, r2.B, r2.C))
        (truthTable ts) := by
  have hf := usedVars_eq_filter ts
  by_cases hA : Token.VAR VarName.A ∈ ts <;>
    by_cases hB : Token.VAR VarName.B ∈ ts <;>
      by_cases hC : Token.VAR VarName.C ∈ ts
  ·
    have hv : usedVars ts = [VarName.A, VarName.B, VarName.C] := by
      rw [hf]; simp [varOrder, hA, hB, hC]
    have hh := truthTable_len_pairwise ts _ hv (by decide) (by decide)
    exact ⟨by rw [hh.1, hv]; simp, hh.2⟩
  ·
    have hv : usedVars ts = [VarName.A, VarName.B] := by
      rw [hf]; simp [varOrder, hA, hB, hC]
    have hh := truthTable_len_pairwise ts _ hv (by decide) (by decide)
    exact ⟨by rw [hh.1, hv]; simp, hh.2⟩
  ·
    have hv : usedVars ts = [VarName.A, VarName.C] := by
      rw [hf]; simp [varOrder, hA, hB, hC]
    have hh := truthTable_len_pairwise ts _ hv (by decide) (by decide)
    exact ⟨by rw [hh.1, hv]; simp, hh.2⟩
  ·
    have hv : usedVars ts = [VarName.A] := by
      rw [hf]; simp [varOrder, hA, hB, hC]
    have hh := truthTable_len_pairwise ts _ hv (by decide) (by decide)
    exact ⟨by rw [hh.1, hv]; simp, hh.2⟩
  ·
    have hv : usedVars ts = [VarName.B, VarName.C] := by
      rw [hf]; simp [varOrder, hA, hB, hC]
    have hh := truthTable_len_pairwise ts _ hv (by decide) (by decide)
    exact ⟨by rw [hh.1, hv]; simp, hh.2⟩
  ·
    have hv : usedVars ts = [VarName.B] := by
      rw [hf]; simp [varOrder, hA, hB, hC]
    have hh := truthTable_len_pairwise ts _ hv (by decide) (by decide)
    exact ⟨by rw [hh.1, hv]; simp, hh.2⟩
  ·
    have hv : usedVars ts = [VarName.C] := by
      rw [hf]; simp [varOrder, hA, hB, hC]
    have hh := truthTable_len_pairwise ts _ hv (by decide) (by decide)
    exact ⟨by rw [hh.1, hv]; simp, hh.2⟩
  ·
    have hv : usedVars ts = [] := by
      rw [hf]; simp [varOrder, hA, hB, hC]
    constructor
    · rw [show truthTable ts = [] from by unfold truthTable; rw [hv]; rfl, hv]
      simp
    · rw [show truthTable ts = [] from by unfold truthTable; rw [hv]; rfl]
      exact List.Pairwise.nil

/-- C9: with at least one used variable, the enumerator produces one row
for every mask in `[0, 2^n)` — each row pairing the mask's assignment with
`cellOf` of the pipeline's outcome — and `cellOf` of any pipeline failure
is the `"—"` sentinel, so failures never abort the remaining assignments. -/
theorem spec_C9_failure_keeps_enumerating (ts : List Token)
    (h : usedVars ts ≠ []) :
    (truthTable ts).length = 2 ^ (usedVars ts).length ∧
      (∀ mask, mask < 2 ^ (usedVars ts).length →
        (truthTable ts)[mask]? =
          some (mkRow (buildAssignment (usedVars ts) mask (usedVars ts).length)
            (cellOf (safeEvaluate ts
              (buildAssignment (usedVars ts) mask (usedVars ts).length))))) ∧
      (∀ (env : Env) (e : String), safeEvaluate ts env = Except.error e →
        cellOf (safeEvaluate ts env) = CellResult.sentinel) := by
  have ht : truthTable ts =
      (List.range (2 ^ (usedVars ts).length)).map
        (fun mask => mkRow (buildAssignment (usedVars ts) mask (usedVars ts).length)
          (cellOf (safeEvaluate ts
            (buildAssignment (usedVars ts) mask (usedVars ts).length)))) := by
    unfold truthTable
    rw [if_neg (fun hz => h (List.length_eq_zero.mp hz))]
  refine ⟨by rw [ht]; simp, ?_, ?_⟩
  · intro mask hm
    rw [ht, List.getElem?_map, List.getElem?_range hm]
    rfl
  · intro env e he
    rw [show cellOf (safeEvaluate ts env) = cellOf (Except.error e) from by rw [he]]
    rfl

/-- Witness for C9 at the malformed expression `A A` (two operands with no
operator): one used variable, hence two rows, both carrying the sentinel. -/
theorem spec_C9_witness :
    usedVars [Token.VAR VarName.A, Token.VAR VarName.A] ≠ [] ∧
      (truthTable [Token.VAR VarName.A, Token.VAR VarName.A]).length =
        2 ^ (usedVars [Token.VAR VarName.A, Token.VAR VarName.A]).length :=
  ⟨by decide, (spec_C9_failure_keeps_enumerating
    [Token.VAR VarName.A, Token.VAR VarName.A] (by decide)).1⟩

/-- The two messages of the Validator's missing-operator rules. -/
def isMissingMsg (s : String) : Bool :=
  s == "Missing operator between operands" ||
    s == "Missing operator between ) and next token"

/-- The trigger of the Validator's missing-operator rules at one position:
the current token is a `Variable` or a `RightParen` and the next token is a
`Variable` or a `LeftParen`. -/
def misfire (t : Token) (next : Option Token) : Bool :=
  (isVarTok t || t == Token.RPAREN) && isVarOrLParen next

/-- No Validator rule fires anywhere along `pre`, when `pre` is followed by
`follow` and preceded by `prev`. -/
def cleanChain : Option Token → List Token → Token → Bool
  | _, [], _ => true
  | prev, t :: rest, follow =>
    decide (checkTok prev t (some (rest.headD follow)) = none) &&
      cleanChain (some t) rest follow

/-- When the missing-operator trigger holds, the position check fires with
one of the two missing-operator messages (they are checked first). -/
theorem checkTok_of_misfire (prev : Option Token) (t : Token) (next : Option Token)
    (hm : misfire t next = true) :
    ∃ e, checkTok prev t next = some e ∧ isMissingMsg e = true := by
  have hn : isVarOrLParen next = true := by
    revert hm; unfold misfire; cases isVarOrLParen next <;> simp
  by_cases hv : isVarTok t = true
  · refine ⟨"Missing operator between operands", ?_, by decide⟩
    unfold checkTok
    rw [if_pos (by rw [hv, hn]; rfl)]
  · have hv' : isVarTok t = false := by revert hv; cases isVarTok t <;> simp
    have hr : (t == Token.RPAREN) = true := by
      revert hm; unfold misfire; rw [hv', hn]; cases t == Token.RPAREN <;> simp
    refine ⟨"Missing operator between ) and next token", ?_, by decide⟩
    unfold checkTok
    rw [if_neg (by rw [hv']; simp), if_pos (by rw [hr, hn]; rfl)]

/-- When the missing-operator trigger does not hold, whatever the position
check reports is not a missing-operator message. -/
theorem checkTok_not_missing (prev : Option Token) (t : Token) (next : Option Token)
    (hm : misfire t next = false) :
    ∀ e, checkTok prev t next = some e → isMissingMsg e = false := by
  intro e he
  have h1 : (isVarTok t && isVarOrLParen next) = false := by
    revert hm; unfold misfire
    cases isVarTok t <;> cases isVarOrLParen next <;> simp
  have h2 : ((t == Token.RPAREN) && isVarOrLParen next) = false := by
    revert hm; unfold misfire
    cases isVarTok t <;> cases t == Token.RPAREN <;> cases isVarOrLParen next <;> simp
  unfold checkTok at he
  rw [if_neg (by rw [h1]; simp), if_neg (by rw [h2]; simp)] at he
  split at he
  · cases he; decide
  · split at he
    · cases he; decide
    · split at he
      · cases he; decide
      · cases he

/-- The scan reports a missing-operator message exactly when the token
sequence splits as `pre ++ t :: rest` with the missing-operator trigger at
`t` and no Validator rule firing anywhere in `pre`. -/
theorem scan_missing_iff : ∀ (ts : List Token) (prev : Option Token),
    (∃ e, scan prev ts = some e ∧ isMissingMsg e = true) ↔
      ∃ pre t rest, ts = pre ++ t :: rest ∧ misfire t rest.head? = true ∧
        cleanChain prev pre t = true := by
  intro ts
  induction ts with
  | nil =>
    intro prev
    constructor
    · rintro ⟨e, he, _⟩
      exact absurd he (by simp [scan])
    · rintro ⟨pre, t, rest, habs, _, _⟩
      exact absurd habs (by simp)
  | cons t0 rest0 ih =>
    intro prev
    rcases hck : checkTok prev t0 rest0.head? with _ | e0
    · have hscan : scan prev (t0 :: rest0) = scan (some t0) rest0 := by
        show (match checkTok prev t0 rest0.head? with
          | some e => some e
          | none => scan (some t0) rest0) = scan (some t0) rest0
        rw [hck]
      rw [hscan, ih (some t0)]
      constructor
      · rintro ⟨pre, t, rest, hsplit, hmis, hclean⟩
        refine ⟨t0 :: pre, t, rest, by rw [List.cons_append, hsplit], hmis, ?_⟩
        unfold cleanChain
        rw [Bool.and_eq_true]
        refine ⟨?_, hclean⟩
        have heads : some (pre.headD t) = rest0.head? := by
          rw [hsplit]; cases pre <;> simp
        rw [heads, hck]
        rfl
      · rintro ⟨pre, t, rest, hsplit, hmis, hclean⟩
        cases pre with
        | nil =>
          simp only [List.nil_append, List.cons.injEq] at hsplit
          obtain ⟨h1, h2⟩ := hsplit
          subst h1; subst h2
          obtain ⟨e, hce, _⟩ := checkTok_of_misfire prev _ _ hmis
          rw [hck] at hce
          cases hce
        | cons p pre' =>
          simp only [List.cons_append, List.cons.injEq] at hsplit
          obtain ⟨hp, hrest⟩ := hsplit
          subst hp
          unfold cleanChain at hclean
          rw [Bool.and_eq_true] at hclean
          exact ⟨pre', t, rest, hrest, hmis, hclean.2⟩
    · have hscan : scan prev (t0 :: rest0) = some e0 := by
        show (match checkTok prev t0 rest0.head? with
          | some e => some e
          | none => scan (some t0) rest0) = some e0
        rw [hck]
      rw [hscan]
      by_cases hm0 : misfire t0 rest0.head? = true
      · constructor
        · rintro _
          exact ⟨[], t0, rest0, rfl, hm0, rfl⟩
        · rintro _
          obtain ⟨e, hce, hme⟩ := checkTok_of_misfire prev t0 rest0.head? hm0
          rw [hck] at hce
          cases hce
          exact ⟨e0, rfl, hme⟩
      · have hm0' : misfire t0 rest0.head? = false := by
          revert hm0; cases misfire t0 rest0.head? <;> simp
        have hnm := checkTok_not_missing prev t0 rest0.head? hm0' e0 hck
        constructor
        · rintro ⟨e, hee, hme⟩
          cases hee
          rw [hnm] at hme
          cases hme
        · rintro ⟨pre, t, rest, hsplit, hmis, hclean⟩
          cases pre with
          | nil =>
            simp only [List.nil_append, List.cons.injEq] at hsplit
            obtain ⟨h1, h2⟩ := hsplit
            subst h1; subst h2
            rw [hmis] at hm0'
            cases hm0'
          | cons p pre' =>
            simp only [List.cons_append, List.cons.injEq] at hsplit
            obtain ⟨hp, hrest⟩ := hsplit
            subst hp
            unfold cleanChain at hclean
            rw [Bool.and_eq_true] at hclean
            obtain ⟨hc1, _⟩ := hclean
            have heads : some (pre'.headD t) = rest0.head? := by
              rw [hrest]; cases pre' <;> simp
            rw [heads, hck] at hc1
            exact absurd (of_decide_eq_true hc1) (by simp)

/-- C1 counterexample: in `( A )` a `LeftParen` is immediately followed by
a `Variable`, yet the Validator reports no error at all (and the whole
pipeline evaluates the expression), so `LeftParen` followed by an operand
is not flagged as `MissingOperator`. -/
theorem spec_C1_counterexample :
    [Token.LPAREN, Token.VAR VarName.A, Token.RPAREN].head? = some Token.LPAREN ∧
      [Token.LPAREN, Token.VAR VarName.A, Token.RPAREN].tail.head? =
        some (Token.VAR VarName.A) ∧
      validate [Token.LPAREN, Token.VAR VarName.A, Token.RPAREN] = none ∧
      safeEvaluate [Token.LPAREN, Token.VAR VarName.A, Token.RPAREN] [] =
        Except.ok false :=
  ⟨rfl, rfl, rfl, rfl⟩

/-- C1 (amended): the Validator reports a missing-operator error exactly
when the sequence splits as `pre ++ t :: rest` where `t` is a `Variable` or
`RightParen` immediately followed by a `Variable` or `LeftParen`, and no
Validator rule fires at any earlier position; a `LeftParen` in the first
position of the pair is not a trigger. -/
theorem spec_C1_amended_missing_operator (ts : List Token) :
    (∃ e, validate ts = some e ∧ isMissingMsg e = true) ↔
      ∃ pre t rest, ts = pre ++ t :: rest ∧ misfire t rest.head? = true ∧
        cleanChain none pre t = true := by
  cases ts with
  | nil =>
    constructor
    · rintro ⟨e, he, hme⟩
      rw [show validate [] = some "Empty expression" from rfl] at he
      cases he
      exact absurd hme (by decide)
    · rintro ⟨pre, t, rest, habs, _, _⟩
      exact absurd habs (by simp)
  | cons t0 rest0 =>
    rw [show validate (t0 :: rest0) = scan none (t0 :: rest0) from rfl]
    exact scan_missing_iff (t0 :: rest0) none
